import Mathlib

/-!
Verification of the Word_Note spaced-repetition core.

The definitions below are a shallow embedding of the Python sources:
  * `models/learning_model.py`   — SM-2 parameter computation, review
    recording (`update_word_after_learning`), due-word selection
    (`get_learning_words`);
  * `common/personalization.py`  — weighting (`calculate_weights`),
    weighted selection (`get_weighted_words`), and the simplified
    flat-increment scheduling variant (`update_ease_factor`);
  * `common/db_connection.py`    — each `execute_non_query` call commits (or
    rolls back only itself) and re-raises on error; `execute_query` returns
    `[]` on error and never raises.

Python floats are modelled as rationals (ℚ); SQLite integer columns as ℤ;
fallible storage calls are modelled by an explicit failure-injection
parameter naming which write statement raises.
-/

/-- `float.__floor__`-style floor of a rational, as an executable function:
for a rational `num/den` with `den > 0`, Euclidean division by a positive
divisor is exactly the floor. -/
def ratFloor (q : ℚ) : ℤ := q.num.ediv q.den

/-- Python `int(x)`: truncation toward zero. -/
def pyInt (q : ℚ) : ℤ := if 0 ≤ q then ratFloor q else -(ratFloor (-q))

/-- Python `round(x)` (one-argument form): round half to even. -/
def pyRound (q : ℚ) : ℤ :=
  let f := ratFloor q
  let r := q - (f : ℚ)
  if r < 1/2 then f
  else if (1:ℚ)/2 < r then f + 1
  else if f % 2 = 0 then f else f + 1

/-- `learning_model.SM2_INITIAL_EASE_FACTOR = 2.5` -/
def SM2_INITIAL_EASE_FACTOR : ℚ := 5/2

/-- `learning_model.SM2_MIN_EASE_FACTOR = 1.3` -/
def SM2_MIN_EASE_FACTOR : ℚ := 13/10

/-- Embedding of `LearningModel._calculate_sm2_params(old_ef, interval, quality)`
(`models/learning_model.py`, lines 30-57).  Returns `(new_ef, next_interval)`. -/
def calculate_sm2_params (old_ef : ℚ) (interval : ℤ) (quality : ℤ) : ℚ × ℤ :=
  let p : ℚ × ℤ :=
    if quality < 3 then
      -- 오답 (0, 1, 2)
      (old_ef, 0)
    else
      -- 정답 (3, 4, 5): new_ef = old_ef + (0.1 - (5 - quality) * (0.08 + (5 - quality) * 0.02))
      let new_ef0 : ℚ :=
        old_ef + (1/10 - ((5 - quality : ℤ) : ℚ) * (8/100 + ((5 - quality : ℤ) : ℚ) * (2/100)))
      let new_ef : ℚ := if new_ef0 < SM2_MIN_EASE_FACTOR then SM2_MIN_EASE_FACTOR else new_ef0
      let next_interval : ℤ :=
        if interval = 0 then 1
        else if interval = 1 then 6
        else pyRound ((interval : ℚ) * new_ef)
      (new_ef, next_interval)
  -- 간격은 최소 1일 보장: if next_interval < 1 and quality >= 3
  let next_interval : ℤ := if p.2 < 1 ∧ 3 ≤ quality then 1 else p.2
  (p.1, next_interval)

/-- The ease-factor update exactly as claim C1 words it: the SM-2 formula
clamped below at `1.3`, with no `2.5` ceiling. -/
def sm2SpecEf (old_ef : ℚ) (quality : ℤ) : ℚ :=
  max SM2_MIN_EASE_FACTOR
    (old_ef + (1/10 - ((5 - quality : ℤ) : ℚ) * (8/100 + ((5 - quality : ℤ) : ℚ) * (2/100))))

/-- The interval update exactly as claim C1 words it: tiered `0 ↦ 1`, `1 ↦ 6`,
otherwise `round(old_interval × new_ef)`, with a floor of 1 after rounding. -/
def sm2SpecInterval (old_ef : ℚ) (interval quality : ℤ) : ℤ :=
  if interval = 0 then 1
  else if interval = 1 then 6
  else max 1 (pyRound ((interval : ℚ) * sm2SpecEf old_ef quality))

/-! ## Storage model

`word_statistics` rows, the append-only `learning_history` log, and the date
strings the code stores and compares.  `update_word_after_learning` writes
`next_study_date` as `"%Y-%m-%d 00:00:00"` while the due-word query compares
against SQLite's `date('now')`, which is a bare `"YYYY-MM-DD"`.  SQLite
compares TEXT by memcmp; both formats share the fixed-width, zero-padded
10-character date prefix, so memcmp order is: date prefix in calendar order
first, and on an equal prefix the bare date (a strict prefix of the other
string) sorts strictly below the midnight-timestamp form.  `SqlDate` captures
exactly those two formats, with `day` an abstract day number standing for the
calendar date. -/

/-- A date value as stored/compared by the code: either the bare
`"YYYY-MM-DD"` produced by SQLite `date('now')`, or the
`"YYYY-MM-DD 00:00:00"` written by `update_word_after_learning`. -/
inductive SqlDate where
  | ymd (day : ℤ)
  | ymdMidnight (day : ℤ)
deriving DecidableEq, Repr

def SqlDate.dayOf : SqlDate → ℤ
  | .ymd d => d
  | .ymdMidnight d => d

def SqlDate.suffixRank : SqlDate → ℕ
  | .ymd _ => 0
  | .ymdMidnight _ => 1

/-- SQLite memcmp TEXT comparison `a <= b` restricted to the two date formats. -/
def sqlDateLeB (a b : SqlDate) : Bool :=
  decide (a.dayOf < b.dayOf) ||
    (decide (a.dayOf = b.dayOf) && decide (a.suffixRank ≤ b.suffixRank))

/-- One row of `learning_history` as inserted by `update_word_after_learning`. -/
structure HistoryEntry where
  word_id : ℕ
  study_date : String
  is_correct : ℤ
  response_time : ℤ
  study_type : String
deriving DecidableEq, Repr

/-- One row of `word_statistics`. -/
structure WordStats where
  total_attempts : ℤ
  correct_count : ℤ
  wrong_count : ℤ
  ease_factor : ℚ
  interval_days : ℤ
  next_study_date : Option SqlDate
  last_study_date : Option String
deriving DecidableEq, Repr

/-- The storage state the learning model reads and writes: the `words` table
(only `word_id` matters to the core), the `word_statistics` table keyed by
`word_id`, and the `learning_history` log. -/
structure DB where
  words : List ℕ
  stats : List (ℕ × WordStats)
  history : List HistoryEntry
deriving DecidableEq, Repr

/-- `UPDATE word_statistics SET ... WHERE word_id = ?`: rewrite every row with
the matching key, leave the rest as they are (a no-op if the row is absent). -/
def setStats (stats : List (ℕ × WordStats)) (wid : ℕ) (f : WordStats → WordStats) :
    List (ℕ × WordStats) :=
  stats.map (fun p => if p.1 = wid then (p.1, f p.2) else p)

/-- The row inserted when no statistics exist yet (`learning_model.py`, lines
85-91): `(word_id, 1, is_correct, 1 - is_correct, 2.5, 0)`; `next_study_date`
and `last_study_date` are not in the column list and stay NULL. -/
def initialStats (is_correct : ℤ) : WordStats :=
  { total_attempts := 1, correct_count := is_correct, wrong_count := 1 - is_correct,
    ease_factor := SM2_INITIAL_EASE_FACTOR, interval_days := 0,
    next_study_date := none, last_study_date := none }

/-- Embedding of `LearningModel.update_word_after_learning(word_id, quality)`
(`models/learning_model.py`, lines 59-139).

`nowDay` is the current calendar day (used for `next_study_date` arithmetic),
`nowTs` the `"%Y-%m-%d %H:%M:%S"` timestamp string.  `failAt` injects a
storage failure: `some k` makes the k-th `execute_non_query` statement raise
(`execute_non_query` rolls back only its own statement and re-raises; each
earlier statement has already committed, since every call passes
`commit=True`).  The surrounding `try/except` catches the exception and
returns `False`.  The two `execute_query` reads return `[]` on error instead
of raising and are not failure-injected. -/
def update_word_after_learning (db : DB) (word_id : ℕ) (quality : ℤ)
    (nowDay : ℤ) (nowTs : String) (failAt : Option ℕ) : Bool × DB :=
  let is_correct : ℤ := if 3 ≤ quality then 1 else 0
  -- 1. 학습 이력 기록: INSERT INTO learning_history (non-query call 0)
  if failAt = some 0 then (false, db) else
  let db1 : DB := { db with history :=
    db.history ++ [⟨word_id, nowTs, is_correct, 0, "flashcard"⟩] }
  -- 2. SELECT word_id FROM word_statistics WHERE word_id = ?, then
  --    INSERT or UPDATE of the counters (non-query call 1)
  if failAt = some 1 then (false, db1) else
  let db2 : DB :=
    match List.lookup word_id db1.stats with
    | none => { db1 with stats := (word_id, initialStats is_correct) :: db1.stats }
    | some _ => { db1 with stats := setStats db1.stats word_id (fun s =>
        { s with total_attempts := s.total_attempts + 1,
                 correct_count := s.correct_count + is_correct,
                 wrong_count := s.wrong_count + (1 - is_correct) }) }
  -- 3. SELECT ease_factor, interval_days FROM word_statistics WHERE word_id = ?
  let old : ℚ × ℤ :=
    match List.lookup word_id db2.stats with
    | some s => (s.ease_factor, s.interval_days)
    | none => (SM2_INITIAL_EASE_FACTOR, 0)
  let ni : ℚ × ℤ := calculate_sm2_params old.1 old.2 quality
  -- final UPDATE of ease_factor / interval_days / next_study_date /
  -- last_study_date (non-query call 2); next_study_date = now + interval,
  -- formatted "%Y-%m-%d 00:00:00"
  if failAt = some 2 then (false, db2) else
  let db3 : DB := { db2 with stats := setStats db2.stats word_id (fun s =>
      { s with ease_factor := ni.1, interval_days := ni.2,
               next_study_date := some (.ymdMidnight (nowDay + ni.2)),
               last_study_date := some nowTs }) }
  (true, db3)

/-- The `(total_attempts, correct_count, wrong_count)` of a word, coalesced to
zeros when no statistics row exists. -/
def statCounters (db : DB) (wid : ℕ) : ℤ × ℤ × ℤ :=
  match List.lookup wid db.stats with
  | none => (0, 0, 0)
  | some s => (s.total_attempts, s.correct_count, s.wrong_count)

/-! ## Due-word selection (`get_learning_words`)

The query left-joins `words` with `word_statistics`, keeps a row when
`(T1.next_study_date IS NULL OR T1.next_study_date <= date('now')) OR
(T1.total_attempts IS NULL OR T1.total_attempts = 0)`, orders by
`T1.next_study_date ASC` (SQLite sorts NULLs first in ASC; a missing joined
row also yields NULL), tie-broken by `T0.word_id ASC` through the second sort
key, and applies `LIMIT ?` (SQLite: `LIMIT 0` yields no rows, a negative
limit yields all rows).  `wrong_rate` in the SELECT list is derived display
data used by no claim and is omitted from the row model. -/

/-- One result row of the due-word query: the word joined with its
(possibly missing) statistics, counters coalesced to 0. -/
structure DueRow where
  word_id : ℕ
  total_attempts : ℤ
  correct_count : ℤ
  wrong_count : ℤ
  next_study_date : Option SqlDate
  ease_factor : Option ℚ
  last_study_date : Option String
deriving DecidableEq, Repr

/-- `LEFT JOIN word_statistics ON T0.word_id = T1.word_id` with the COALESCEs
of the SELECT list. -/
def joinRow (db : DB) (wid : ℕ) : DueRow :=
  match List.lookup wid db.stats with
  | none => ⟨wid, 0, 0, 0, none, none, none⟩
  | some s => ⟨wid, s.total_attempts, s.correct_count, s.wrong_count,
      s.next_study_date, some s.ease_factor, s.last_study_date⟩

/-- The WHERE clause of the query.  For a missing joined row every `T1` column
is NULL, so `T1.next_study_date IS NULL` already admits the row; this matches
`next_study_date = none` here (coalesced `total_attempts = 0` then also
holds).  For a present row: `next_study_date` NULL, or `<=` today under
SQLite text comparison, or `total_attempts = 0`. -/
def DueRow.qualifies (today : ℤ) (r : DueRow) : Bool :=
  (match r.next_study_date with
   | none => true
   | some d => sqlDateLeB d (.ymd today)) || decide (r.total_attempts = 0)

/-- Sort key of `ORDER BY T1.next_study_date ASC, T0.word_id ASC`:
NULL dates first, then the text order of the stored date, then `word_id`. -/
abbrev RowKey := ℕ ×ₗ (ℤ ×ₗ (ℕ ×ₗ ℕ))

def DueRow.sortKey (r : DueRow) : RowKey :=
  match r.next_study_date with
  | none => toLex (0, toLex (0, toLex (0, r.word_id)))
  | some d => toLex (1, toLex (d.dayOf, toLex (d.suffixRank, r.word_id)))

def rowLe (a b : DueRow) : Prop := a.sortKey ≤ b.sortKey

instance rowLe.instDecidableRel : DecidableRel rowLe :=
  fun a b => inferInstanceAs (Decidable (a.sortKey ≤ b.sortKey))

instance rowLe.instIsTotal : IsTotal DueRow rowLe :=
  ⟨fun a b => le_total a.sortKey b.sortKey⟩

instance rowLe.instIsTrans : IsTrans DueRow rowLe :=
  ⟨fun _ _ _ h1 h2 => le_trans h1 h2⟩

/-- Embedding of `LearningModel.get_learning_words(limit, learning_mode)`
(`models/learning_model.py`, lines 141-182).  `today` is SQLite's
`date('now')`.  `learning_mode` is only logged by the source and does not
affect the result. -/
def get_learning_words (db : DB) (today : ℤ) (limit : ℤ)
    (_learning_mode : String) : List DueRow :=
  let rows := (db.words.map (joinRow db)).filter (DueRow.qualifies today)
  let sorted := List.insertionSort rowLe rows
  if limit < 0 then sorted else sorted.take limit.toNat

/-- Modelled from the spec's words (§4.3): a word qualifies if it has no
statistics row or `total_attempts == 0`, or `next_study_date` is null or
`next_study_date ≤ today` — with the date compared as a calendar date. -/
def specQualifies (today : ℤ) (r : DueRow) : Bool :=
  decide (r.total_attempts = 0) ||
    (match r.next_study_date with
     | none => true
     | some d => decide (d.dayOf ≤ today))

/-! ## Personalization engine (`common/personalization.py`) -/

/-- A word as consumed by the personalization engine:
`{'word_id', 'total_attempts', 'wrong_count'}` (missing keys default to 0). -/
structure PWord where
  word_id : ℕ
  total_attempts : ℤ
  wrong_count : ℤ
deriving DecidableEq, Repr

/-- The per-word weight of `calculate_weights` (lines 52-65): `1.5` for a word
with no attempts, else `1.0 + (wrong_count / total_attempts) * 2.0`. -/
def wordWeight (w : PWord) : ℚ :=
  if w.total_attempts = 0 then 3/2
  else 1 + ((w.wrong_count : ℚ) / (w.total_attempts : ℚ)) * 2

/-- One iteration of the dict-building loop of `calculate_weights`: Python
dict assignment — a later word with the same id overwrites an earlier one. -/
def weightStep (acc : ℕ → Option ℚ) (w : PWord) : ℕ → Option ℚ :=
  fun k => if k = w.word_id then some (wordWeight w) else acc k

/-- Embedding of `PersonalizationEngine.calculate_weights(words)`
(`common/personalization.py`, lines 31-68), as the finished
`{word_id: weight}` dict. -/
def calculate_weights (words : List PWord) : ℕ → Option ℚ :=
  words.foldl weightStep (fun _ => none)

/-- The dedup loop of `get_weighted_words` (lines 109-115): keep each drawn
word whose `word_id` has not been seen yet. -/
def dedupeByIdAux (seen : List ℕ) : List PWord → List PWord
  | [] => []
  | w :: ws =>
    if w.word_id ∈ seen then dedupeByIdAux seen ws
    else w :: dedupeByIdAux (w.word_id :: seen) ws

/-- Embedding of `PersonalizationEngine.get_weighted_words(words, count)`
(`common/personalization.py`, lines 70-123).  The
`random.choices(words, weights=weight_list, k=count)` draw is an oracle
parameter `draw`; the claims assume only what `random.choices` guarantees
(`count` elements, each from `words`).  The weights (all ≥ 1 here) only skew
the distribution, and the `except` fallback to `random.sample` fires only if
the draw itself raises, so it is not modelled. -/
def get_weighted_words (words : List PWord) (count : ℕ) (draw : List PWord) : List PWord :=
  if words = [] then []
  else if words.length ≤ count then words
  else dedupeByIdAux [] draw

/-- Embedding of the pure computation inside
`PersonalizationEngine.update_ease_factor` (`common/personalization.py`,
lines 156-161): the simplified flat-increment scheduling variant.  Note the
interval of the correct branch is multiplied by the already-updated ease
factor, and `int()` truncates. -/
def update_ease_factor_calc (ease_factor : ℚ) (interval_days : ℤ)
    (is_correct : Bool) : ℚ × ℤ :=
  if is_correct then
    let ef := min (ease_factor + 1/10) (5/2 : ℚ)
    (ef, pyInt ((interval_days : ℚ) * ef))
  else
    let ef := max (ease_factor - 2/10) (13/10 : ℚ)
    (ef, max 1 (pyInt ((interval_days : ℚ) * (1/2))))

lemma if_lt_then_bound_eq_max {α : Type} [LinearOrder α] (m x : α) :
    (if x < m then m else x) = max m x := by
  rcases le_or_lt m x with h | h
  · rw [if_neg (not_lt.mpr h), max_eq_right h]
  · rw [if_pos h, max_eq_left h.le]

/-- C1: for quality in [3,5], ease factor ≥ 1.3 and interval ≥ 0, the SM-2
computation returns the claimed formula clamped below at 1.3 (no 2.5 ceiling)
and the claimed tiered interval (`0 ↦ 1`, `1 ↦ 6`, otherwise the rounded
product) with a floor of 1 enforced after rounding. -/
theorem C1_sm2_success (old_ef : ℚ) (interval quality : ℤ)
    (hq1 : 3 ≤ quality) (hq2 : quality ≤ 5)
    (hef : SM2_MIN_EASE_FACTOR ≤ old_ef) (hi : 0 ≤ interval) :
    calculate_sm2_params old_ef interval quality =
      (sm2SpecEf old_ef quality, sm2SpecInterval old_ef interval quality) ∧
    1 ≤ (calculate_sm2_params old_ef interval quality).2 := by
  have h3 : ¬ quality < 3 := by omega
  have key : calculate_sm2_params old_ef interval quality =
      (sm2SpecEf old_ef quality, sm2SpecInterval old_ef interval quality) := by
    simp only [calculate_sm2_params, if_neg h3, sm2SpecInterval, sm2SpecEf]
    rcases Decidable.em (interval = 0) with h0 | h0
    · simp [h0, hq1, if_lt_then_bound_eq_max]
    · rcases Decidable.em (interval = 1) with h1 | h1
      · simp [h0, h1, hq1, if_lt_then_bound_eq_max]
      · simp [h0, h1, hq1, if_lt_then_bound_eq_max]
  refine ⟨key, ?_⟩
  rw [key]
  simp only [sm2SpecInterval]
  rcases Decidable.em (interval = 0) with h0 | h0
  · rw [if_pos h0]
  · rcases Decidable.em (interval = 1) with h1 | h1
    · rw [if_neg h0, if_pos h1]; norm_num
    · rw [if_neg h0, if_neg h1]; exact le_max_left 1 _
/-- Witness for C1 at `(old_ef, interval, quality) = (2.5, 0, 5)`. -/
theorem C1_sm2_success_witness :
    (3 ≤ (5:ℤ) ∧ (5:ℤ) ≤ 5 ∧ SM2_MIN_EASE_FACTOR ≤ (5/2 : ℚ) ∧ (0:ℤ) ≤ 0) ∧
    (calculate_sm2_params (5/2) 0 5 = (sm2SpecEf (5/2) 5, sm2SpecInterval (5/2) 0 5) ∧
     1 ≤ (calculate_sm2_params (5/2) 0 5).2) :=
  ⟨⟨by norm_num, by norm_num, by norm_num [SM2_MIN_EASE_FACTOR], by norm_num⟩,
   C1_sm2_success (5/2) 0 5 (by norm_num) (by norm_num)
     (by norm_num [SM2_MIN_EASE_FACTOR]) (by norm_num)⟩

/-- C2: for quality in [0,2] the SM-2 computation leaves the ease factor
unchanged and resets the interval to 0, for every old interval. -/
theorem C2_sm2_failure (old_ef : ℚ) (interval quality : ℤ)
    (hq0 : 0 ≤ quality) (hq2 : quality ≤ 2) :
    calculate_sm2_params old_ef interval quality = (old_ef, 0) := by
  have h3 : quality < 3 := by omega
  have h3' : ¬ 3 ≤ quality := by omega
  simp [calculate_sm2_params, h3, h3']

/-- Witness for C2 at `(old_ef, interval, quality) = (2.5, 17, 1)`. -/
theorem C2_sm2_failure_witness :
    ((0:ℤ) ≤ 1 ∧ (1:ℤ) ≤ 2) ∧ calculate_sm2_params (5/2) 17 1 = (5/2, 0) :=
  ⟨⟨by norm_num, by norm_num⟩, C2_sm2_failure (5/2) 17 1 (by norm_num) (by norm_num)⟩

lemma setStats_cons (k : ℕ) (v : WordStats) (rest : List (ℕ × WordStats))
    (wid : ℕ) (f : WordStats → WordStats) :
    setStats ((k, v) :: rest) wid f =
      (if k = wid then (k, f v) else (k, v)) :: setStats rest wid f := by
  simp only [setStats, List.map_cons]

lemma lookup_setStats_self (stats : List (ℕ × WordStats)) (wid : ℕ)
    (f : WordStats → WordStats) :
    List.lookup wid (setStats stats wid f) = (List.lookup wid stats).map f := by
  induction stats with
  | nil => rfl
  | cons p rest ih =>
    obtain ⟨k, v⟩ := p
    rw [setStats_cons]
    rcases Decidable.em (k = wid) with h | h
    · subst h
      rw [if_pos rfl]
      simp [List.lookup]
    · rw [if_neg h]
      have hb : (wid == k) = false := beq_eq_false_iff_ne.mpr (Ne.symm h)
      simp only [List.lookup, hb]
      exact ih

lemma setStats_of_lookup_none (stats : List (ℕ × WordStats)) (wid : ℕ)
    (f : WordStats → WordStats) (h : List.lookup wid stats = none) :
    setStats stats wid f = stats := by
  induction stats with
  | nil => rfl
  | cons p rest ih =>
    obtain ⟨k, v⟩ := p
    rcases Decidable.em (wid = k) with hk | hk
    · exfalso
      simp [List.lookup, hk, beq_self_eq_true] at h
    · have hb : (wid == k) = false := beq_eq_false_iff_ne.mpr hk
      simp only [List.lookup, hb] at h
      rw [setStats_cons, if_neg (fun hkw => hk hkw.symm), ih h]

lemma setStats_setStats (stats : List (ℕ × WordStats)) (wid : ℕ)
    (f g : WordStats → WordStats) :
    setStats (setStats stats wid f) wid g = setStats stats wid (fun s => g (f s)) := by
  induction stats with
  | nil => rfl
  | cons p rest ih =>
    obtain ⟨k, v⟩ := p
    rcases Decidable.em (k = wid) with h | h
    · rw [setStats_cons, if_pos h, setStats_cons, if_pos h, setStats_cons, if_pos h, ih]
    · rw [setStats_cons, if_neg h, setStats_cons, if_neg h, setStats_cons, if_neg h, ih]

/-- Running `update_word_after_learning` with no storage failure on a word with
no statistics row: the history entry is appended, and the inserted row ends up
with the schedule computed from the defaults `(2.5, 0)`. -/
lemma update_none_fresh (db : DB) (wid : ℕ) (q nowDay : ℤ) (nowTs : String)
    (h : List.lookup wid db.stats = none) :
    update_word_after_learning db wid q nowDay nowTs none =
      (true,
       { words := db.words,
         history := db.history ++ [⟨wid, nowTs, if 3 ≤ q then 1 else 0, 0, "flashcard"⟩],
         stats := (wid,
           { total_attempts := 1,
             correct_count := if 3 ≤ q then 1 else 0,
             wrong_count := 1 - (if 3 ≤ q then 1 else 0),
             ease_factor := (calculate_sm2_params SM2_INITIAL_EASE_FACTOR 0 q).1,
             interval_days := (calculate_sm2_params SM2_INITIAL_EASE_FACTOR 0 q).2,
             next_study_date :=
               some (.ymdMidnight (nowDay + (calculate_sm2_params SM2_INITIAL_EASE_FACTOR 0 q).2)),
             last_study_date := some nowTs }) :: db.stats }) := by
  simp only [update_word_after_learning, h, List.lookup, beq_self_eq_true,
    setStats_cons, if_pos rfl, setStats_of_lookup_none db.stats wid _ h]
  simp [initialStats]

/-- Running `update_word_after_learning` with no storage failure on a word
whose statistics row is `s`: counters are incremented and the schedule is
recomputed from the pre-update `(ease_factor, interval_days)` of `s`. -/
lemma update_none_existing (db : DB) (wid : ℕ) (q nowDay : ℤ) (nowTs : String)
    (s : WordStats) (h : List.lookup wid db.stats = some s) :
    update_word_after_learning db wid q nowDay nowTs none =
      (true,
       { words := db.words,
         history := db.history ++ [⟨wid, nowTs, if 3 ≤ q then 1 else 0, 0, "flashcard"⟩],
         stats := setStats db.stats wid (fun t =>
           { total_attempts := t.total_attempts + 1,
             correct_count := t.correct_count + (if 3 ≤ q then 1 else 0),
             wrong_count := t.wrong_count + (1 - (if 3 ≤ q then 1 else 0)),
             ease_factor := (calculate_sm2_params s.ease_factor s.interval_days q).1,
             interval_days := (calculate_sm2_params s.ease_factor s.interval_days q).2,
             next_study_date :=
               some (.ymdMidnight (nowDay + (calculate_sm2_params s.ease_factor s.interval_days q).2)),
             last_study_date := some nowTs }) }) := by
  simp only [update_word_after_learning, h, lookup_setStats_self, Option.map_some,
    setStats_setStats]
  simp

lemma sm2_init_q5 : calculate_sm2_params SM2_INITIAL_EASE_FACTOR 0 5 = (13/5, 1) := by
  norm_num [calculate_sm2_params, SM2_INITIAL_EASE_FACTOR, SM2_MIN_EASE_FACTOR]

/-- C3 counterexample: recording a quality-5 review for word 1, which has no
statistics row, stores ease factor `2.6 = 2.5 + 0.1`, not the `2.5` the claim
asserts (the quality-5 branch adds `0.1 - 0 × (0.08 + 0 × 0.02) = 0.1`). -/
theorem C3_counterexample :
    (List.lookup 1 (update_word_after_learning ⟨[1], [], []⟩ 1 5 0 "2025-11-10 09:00:00" none).2.stats).map
        WordStats.ease_factor = some (13/5) ∧ (13/5 : ℚ) ≠ 5/2 := by
  constructor
  · rw [update_none_fresh ⟨[1], [], []⟩ 1 5 0 "2025-11-10 09:00:00" rfl]
    norm_num [List.lookup, sm2_init_q5]
  · norm_num

/-- C3 amended: a quality-5 review of a word with no prior statistics row
succeeds and leaves `ease_factor = 2.6` (the initial `2.5` plus the `+0.1`
quality-5 bonus — not `2.5` unchanged), `interval_days = 1`, and
`next_study_date = today + 1 day` (at midnight). -/
theorem C3_review_fresh_quality5 (db : DB) (wid : ℕ) (nowDay : ℤ) (nowTs : String)
    (h : List.lookup wid db.stats = none) :
    (update_word_after_learning db wid 5 nowDay nowTs none).1 = true ∧
    List.lookup wid (update_word_after_learning db wid 5 nowDay nowTs none).2.stats =
      some { total_attempts := 1, correct_count := 1, wrong_count := 0,
             ease_factor := 13/5, interval_days := 1,
             next_study_date := some (.ymdMidnight (nowDay + 1)),
             last_study_date := some nowTs } := by
  rw [update_none_fresh db wid 5 nowDay nowTs h]
  refine ⟨rfl, ?_⟩
  norm_num [List.lookup, sm2_init_q5]

/-- Witness for C3's amended theorem on a one-word database. -/
theorem C3_review_fresh_quality5_witness :
    List.lookup 1 (DB.mk [1] [] []).stats = none ∧
    ((update_word_after_learning ⟨[1], [], []⟩ 1 5 7 "2025-12-01 08:30:00" none).1 = true ∧
     List.lookup 1 (update_word_after_learning ⟨[1], [], []⟩ 1 5 7 "2025-12-01 08:30:00" none).2.stats =
       some { total_attempts := 1, correct_count := 1, wrong_count := 0,
              ease_factor := 13/5, interval_days := 1,
              next_study_date := some (.ymdMidnight (7 + 1)),
              last_study_date := some "2025-12-01 08:30:00" }) :=
  ⟨rfl, C3_review_fresh_quality5 ⟨[1], [], []⟩ 1 7 "2025-12-01 08:30:00" rfl⟩

/-- C4 counterexample: when the final schedule `UPDATE` raises, the operation
reports failure, yet the history row inserted by step 1 and the statistics row
created by step 2 are still committed — the state is not "exactly as it was
before the call" as the claim requires. -/
theorem C4_counterexample :
    (update_word_after_learning ⟨[1], [], []⟩ 1 5 0 "2025-11-10 09:00:00" (some 2)).1 = false ∧
    (update_word_after_learning ⟨[1], [], []⟩ 1 5 0 "2025-11-10 09:00:00" (some 2)).2.history ≠
      (DB.mk [1] [] []).history ∧
    (update_word_after_learning ⟨[1], [], []⟩ 1 5 0 "2025-11-10 09:00:00" (some 2)).2.stats ≠
      (DB.mk [1] [] []).stats := by
  refine ⟨rfl, ?_, ?_⟩ <;> simp [update_word_after_learning, List.lookup]

/-- C4 amended: the operation is not atomic.  Every `execute_non_query` commits
on its own, so a storage failure reports `false` but keeps the effects of all
statements that preceded the failing one: a failure of the first statement
leaves the state unchanged; a failure of the counters statement keeps the
appended history row; a failure of the final schedule statement keeps both the
history row and the counter increment. -/
theorem C4_partial_commit (db : DB) (wid : ℕ) (q nowDay : ℤ) (nowTs : String) :
    update_word_after_learning db wid q nowDay nowTs (some 0) = (false, db) ∧
    update_word_after_learning db wid q nowDay nowTs (some 1) =
      (false, { db with history :=
        db.history ++ [⟨wid, nowTs, if 3 ≤ q then 1 else 0, 0, "flashcard"⟩] }) ∧
    (update_word_after_learning db wid q nowDay nowTs (some 2)).1 = false ∧
    (update_word_after_learning db wid q nowDay nowTs (some 2)).2.history =
      db.history ++ [⟨wid, nowTs, if 3 ≤ q then 1 else 0, 0, "flashcard"⟩] ∧
    (statCounters (update_word_after_learning db wid q nowDay nowTs (some 2)).2 wid).1 =
      (statCounters db wid).1 + 1 := by
  refine ⟨rfl, by simp [update_word_after_learning], ?_, ?_, ?_⟩ <;>
    rcases hl : List.lookup wid db.stats with _ | s <;>
      simp [update_word_after_learning, statCounters, hl, List.lookup,
        lookup_setStats_self, initialStats, beq_self_eq_true]

/-- C6: a successful review increments `total_attempts` by exactly 1 and
exactly one of `correct_count` (quality ≥ 3) / `wrong_count` (quality < 3) by
1, so `correct_count + wrong_count = total_attempts` is preserved from any
state satisfying it (and established when the row is first created). -/
theorem C6_counter_invariant (db : DB) (wid : ℕ) (q nowDay : ℤ) (nowTs : String)
    (h : (statCounters db wid).2.1 + (statCounters db wid).2.2 = (statCounters db wid).1) :
    (statCounters (update_word_after_learning db wid q nowDay nowTs none).2 wid).1 =
      (statCounters db wid).1 + 1 ∧
    (statCounters (update_word_after_learning db wid q nowDay nowTs none).2 wid).2.1 =
      (statCounters db wid).2.1 + (if 3 ≤ q then 1 else 0) ∧
    (statCounters (update_word_after_learning db wid q nowDay nowTs none).2 wid).2.2 =
      (statCounters db wid).2.2 + (if 3 ≤ q then 0 else 1) ∧
    (statCounters (update_word_after_learning db wid q nowDay nowTs none).2 wid).2.1 +
        (statCounters (update_word_after_learning db wid q nowDay nowTs none).2 wid).2.2 =
      (statCounters (update_word_after_learning db wid q nowDay nowTs none).2 wid).1 := by
  rcases hl : List.lookup wid db.stats with _ | s
  · rw [update_none_fresh db wid q nowDay nowTs hl]
    rcases Decidable.em (3 ≤ q) with hq | hq <;>
      simp [statCounters, hl, List.lookup, hq]
  · rw [update_none_existing db wid q nowDay nowTs s hl]
    simp only [statCounters, hl, lookup_setStats_self, Option.map_some] at h ⊢
    rcases Decidable.em (3 ≤ q) with hq | hq <;> simp [hq] <;> omega

/-- Witness for C6 on a database whose word-1 row has `3 + 1 = 4` attempts. -/
theorem C6_counter_invariant_witness :
    (statCounters ⟨[1], [(1, ⟨4, 3, 1, 5/2, 6, none, none⟩)], []⟩ 1).2.1 +
        (statCounters ⟨[1], [(1, ⟨4, 3, 1, 5/2, 6, none, none⟩)], []⟩ 1).2.2 =
      (statCounters ⟨[1], [(1, ⟨4, 3, 1, 5/2, 6, none, none⟩)], []⟩ 1).1 ∧
    ((statCounters (update_word_after_learning ⟨[1], [(1, ⟨4, 3, 1, 5/2, 6, none, none⟩)], []⟩ 1 2 0 "2025-12-02 10:00:00" none).2 1).1 =
      (statCounters ⟨[1], [(1, ⟨4, 3, 1, 5/2, 6, none, none⟩)], []⟩ 1).1 + 1 ∧
     (statCounters (update_word_after_learning ⟨[1], [(1, ⟨4, 3, 1, 5/2, 6, none, none⟩)], []⟩ 1 2 0 "2025-12-02 10:00:00" none).2 1).2.1 =
      (statCounters ⟨[1], [(1, ⟨4, 3, 1, 5/2, 6, none, none⟩)], []⟩ 1).2.1 + (if 3 ≤ (2:ℤ) then 1 else 0) ∧
     (statCounters (update_word_after_learning ⟨[1], [(1, ⟨4, 3, 1, 5/2, 6, none, none⟩)], []⟩ 1 2 0 "2025-12-02 10:00:00" none).2 1).2.2 =
      (statCounters ⟨[1], [(1, ⟨4, 3, 1, 5/2, 6, none, none⟩)], []⟩ 1).2.2 + (if 3 ≤ (2:ℤ) then 0 else 1) ∧
     (statCounters (update_word_after_learning ⟨[1], [(1, ⟨4, 3, 1, 5/2, 6, none, none⟩)], []⟩ 1 2 0 "2025-12-02 10:00:00" none).2 1).2.1 +
        (statCounters (update_word_after_learning ⟨[1], [(1, ⟨4, 3, 1, 5/2, 6, none, none⟩)], []⟩ 1 2 0 "2025-12-02 10:00:00" none).2 1).2.2 =
      (statCounters (update_word_after_learning ⟨[1], [(1, ⟨4, 3, 1, 5/2, 6, none, none⟩)], []⟩ 1 2 0 "2025-12-02 10:00:00" none).2 1).1) :=
  ⟨by decide, C6_counter_invariant ⟨[1], [(1, ⟨4, 3, 1, 5/2, 6, none, none⟩)], []⟩ 1 2 0
    "2025-12-02 10:00:00" (by decide)⟩

/-- C7 counterexample: word 1 is due exactly today (`next_study_date` =
today's midnight, stored as `"YYYY-MM-DD 00:00:00"`), so the spec predicate
admits it, but the query compares the stored string against the bare
`date('now')` string, `"YYYY-MM-DD 00:00:00" <= "YYYY-MM-DD"` is false in
text order, and the word is not returned. -/
theorem C7_counterexample :
    specQualifies 100 (joinRow ⟨[1], [(1, ⟨3, 1, 2, 5/2, 1, some (.ymdMidnight 100), none⟩)], []⟩ 1) = true ∧
    DueRow.qualifies 100 (joinRow ⟨[1], [(1, ⟨3, 1, 2, 5/2, 1, some (.ymdMidnight 100), none⟩)], []⟩ 1) = false ∧
    get_learning_words ⟨[1], [(1, ⟨3, 1, 2, 5/2, 1, some (.ymdMidnight 100), none⟩)], []⟩ 100 10 "EN_TO_KR" = [] := by
  refine ⟨by decide, by decide, ?_⟩
  rfl

/-- C7 amended: for `limit ≥ 1` the query returns only qualifying joined rows,
at most `limit` of them, sorted ascending by `next_study_date` (NULLs first,
ties broken by `word_id`); when at most `limit` rows qualify it returns all of
them, and when none qualify it returns the empty list.  The qualification
predicate is the code's: `next_study_date` NULL or at most today in SQLite
TEXT order — since stored dates carry a `" 00:00:00"` suffix, a date equal to
today compares greater than the bare `date('now')` string, so "due exactly
today" words are excluded (last conjunct), unlike the claim's `≤ today`. -/
theorem C7_due_selection (db : DB) (today limit : ℤ) (mode : String) (h : 1 ≤ limit) :
    (∀ r ∈ get_learning_words db today limit mode, DueRow.qualifies today r = true) ∧
    (∀ r ∈ get_learning_words db today limit mode, r ∈ db.words.map (joinRow db)) ∧
    (get_learning_words db today limit mode).length ≤ limit.toNat ∧
    List.Sorted rowLe (get_learning_words db today limit mode) ∧
    (((db.words.map (joinRow db)).filter (DueRow.qualifies today)).length ≤ limit.toNat →
      ∀ r ∈ (db.words.map (joinRow db)).filter (DueRow.qualifies today),
        r ∈ get_learning_words db today limit mode) ∧
    ((db.words.map (joinRow db)).filter (DueRow.qualifies today) = [] →
      get_learning_words db today limit mode = []) ∧
    (∀ d : ℤ, sqlDateLeB (.ymdMidnight d) (.ymd today) = decide (d < today)) := by
  have hneg : ¬ limit < 0 := by omega
  have hR : get_learning_words db today limit mode =
      (List.insertionSort rowLe
        ((db.words.map (joinRow db)).filter (DueRow.qualifies today))).take limit.toNat := by
    simp only [get_learning_words, if_neg hneg]
  have hperm :=
    List.perm_insertionSort rowLe ((db.words.map (joinRow db)).filter (DueRow.qualifies today))
  refine ⟨?_, ?_, ?_, ?_, ?_, ?_, ?_⟩
  · intro r hr
    rw [hR] at hr
    exact (List.mem_filter.mp (hperm.mem_iff.mp (List.mem_of_mem_take hr))).2
  · intro r hr
    rw [hR] at hr
    exact (List.mem_filter.mp (hperm.mem_iff.mp (List.mem_of_mem_take hr))).1
  · rw [hR, List.length_take]
    exact inf_le_left
  · rw [hR]
    exact List.Pairwise.sublist (List.take_sublist _ _) (List.sorted_insertionSort rowLe _)
  · intro hlen r hr
    rw [hR, List.take_of_length_le (by rw [hperm.length_eq]; exact hlen)]
    exact hperm.mem_iff.mpr hr
  · intro hQ
    rw [hR, hQ]
    simp
  · intro d
    simp [sqlDateLeB, SqlDate.dayOf, SqlDate.suffixRank]

/-- Witness for C7's amended theorem on a one-word database with no
statistics, `today = 0`, `limit = 1`. -/
theorem C7_due_selection_witness :
    1 ≤ (1:ℤ) ∧
    ((∀ r ∈ get_learning_words ⟨[1], [], []⟩ 0 1 "MIXED", DueRow.qualifies 0 r = true) ∧
     (∀ r ∈ get_learning_words ⟨[1], [], []⟩ 0 1 "MIXED",
        r ∈ (DB.mk [1] [] []).words.map (joinRow ⟨[1], [], []⟩)) ∧
     (get_learning_words ⟨[1], [], []⟩ 0 1 "MIXED").length ≤ (1:ℤ).toNat ∧
     List.Sorted rowLe (get_learning_words ⟨[1], [], []⟩ 0 1 "MIXED") ∧
     ((((DB.mk [1] [] []).words.map (joinRow ⟨[1], [], []⟩)).filter (DueRow.qualifies 0)).length ≤ (1:ℤ).toNat →
       ∀ r ∈ ((DB.mk [1] [] []).words.map (joinRow ⟨[1], [], []⟩)).filter (DueRow.qualifies 0),
         r ∈ get_learning_words ⟨[1], [], []⟩ 0 1 "MIXED") ∧
     (((DB.mk [1] [] []).words.map (joinRow ⟨[1], [], []⟩)).filter (DueRow.qualifies 0) = [] →
       get_learning_words ⟨[1], [], []⟩ 0 1 "MIXED" = []) ∧
     (∀ d : ℤ, sqlDateLeB (.ymdMidnight d) (.ymd 0) = decide (d < 0))) :=
  ⟨by norm_num, C7_due_selection ⟨[1], [], []⟩ 0 1 "MIXED" (by norm_num)⟩

/-- C5 counterexample: an out-of-range `quality = 7` is not rejected — the
call reports success and a history row has been written, where the claim
requires a typed failure with no storage access. -/
theorem C5_counterexample :
    (update_word_after_learning ⟨[1], [], []⟩ 1 7 0 "2025-11-10 09:00:00" none).1 = true ∧
    (update_word_after_learning ⟨[1], [], []⟩ 1 7 0 "2025-11-10 09:00:00" none).2.history =
      [⟨1, "2025-11-10 09:00:00", 1, 0, "flashcard"⟩] := by
  rw [update_none_fresh ⟨[1], [], []⟩ 1 7 0 "2025-11-10 09:00:00" rfl]
  norm_num

/-- C5 amended: no validation is performed.  `quality = 7` is processed like
any success (counted correct, history appended, call returns `true`), and
`limit < 1` is passed straight into `LIMIT ?`: `limit = 0` returns the empty
list and a negative limit returns every qualifying row. -/
theorem C5_no_validation (db : DB) (wid : ℕ) (nowDay : ℤ) (nowTs : String) (today : ℤ) :
    (update_word_after_learning db wid 7 nowDay nowTs none).1 = true ∧
    (update_word_after_learning db wid 7 nowDay nowTs none).2.history =
      db.history ++ [⟨wid, nowTs, 1, 0, "flashcard"⟩] ∧
    get_learning_words db today 0 "EN_TO_KR" = [] ∧
    get_learning_words db today (-1) "EN_TO_KR" =
      List.insertionSort rowLe ((db.words.map (joinRow db)).filter (DueRow.qualifies today)) := by
  refine ⟨?_, ?_, ?_, ?_⟩
  · rcases hl : List.lookup wid db.stats with _ | s
    · rw [update_none_fresh db wid 7 nowDay nowTs hl]
    · rw [update_none_existing db wid 7 nowDay nowTs s hl]
  · rcases hl : List.lookup wid db.stats with _ | s
    · rw [update_none_fresh db wid 7 nowDay nowTs hl]
      norm_num
    · rw [update_none_existing db wid 7 nowDay nowTs s hl]
      norm_num
  · simp [get_learning_words]
  · simp [get_learning_words]

lemma weights_foldl_untouched (ws : List PWord) (acc : ℕ → Option ℚ) (k : ℕ)
    (h : ∀ w ∈ ws, w.word_id ≠ k) :
    ws.foldl weightStep acc k = acc k := by
  induction ws generalizing acc with
  | nil => rfl
  | cons w ws ih =>
    have hk : ¬ k = w.word_id := fun hkw => h w (List.mem_cons_self w ws) hkw.symm
    rw [List.foldl_cons, ih _ (fun x hx => h x (List.mem_cons_of_mem w hx))]
    simp [weightStep, hk]

lemma calculate_weights_lookup (ws : List PWord) (acc : ℕ → Option ℚ) (w : PWord)
    (hw : w ∈ ws) (hnd : (ws.map PWord.word_id).Nodup) :
    ws.foldl weightStep acc w.word_id = some (wordWeight w) := by
  induction ws generalizing acc with
  | nil => cases hw
  | cons x ws ih =>
    rw [List.map_cons, List.nodup_cons] at hnd
    rw [List.foldl_cons]
    rcases List.mem_cons.mp hw with h | h
    · subst h
      rw [weights_foldl_untouched ws (weightStep acc w) w.word_id ?_]
      · simp [weightStep]
      · intro y hy heq
        exact hnd.1 (heq ▸ List.mem_map_of_mem PWord.word_id hy)
    · exact ih _ h hnd.2

/-- C8: the finished weight dict maps each word with `total_attempts = 0` to
`1.5` and each word with attempts to `1.0 + (wrong_count/total_attempts)*2.0`;
for `0 ≤ wrong_count ≤ total_attempts` the weight lies in `[1.0, 3.0]`, with
`0` wrong giving exactly `1.0`, all wrong giving exactly `3.0` and a 50% wrong
rate giving exactly `2.0`. -/
theorem C8_weighting (words : List PWord) (w : PWord) (i : ℕ) (ta wc : ℤ)
    (hnd : (words.map PWord.word_id).Nodup) (hw : w ∈ words)
    (hta : 0 < ta) (h0 : 0 ≤ wc) (h1 : wc ≤ ta) :
    calculate_weights words w.word_id = some (wordWeight w) ∧
    wordWeight ⟨i, 0, wc⟩ = 3/2 ∧
    wordWeight ⟨i, ta, wc⟩ = 1 + ((wc : ℚ) / (ta : ℚ)) * 2 ∧
    1 ≤ wordWeight ⟨i, ta, wc⟩ ∧
    wordWeight ⟨i, ta, wc⟩ ≤ 3 ∧
    wordWeight ⟨i, ta, 0⟩ = 1 ∧
    wordWeight ⟨i, ta, ta⟩ = 3 ∧
    (2 * wc = ta → wordWeight ⟨i, ta, wc⟩ = 2) := by
  have htane : ta ≠ 0 := by omega
  have hta' : (ta : ℚ) ≠ 0 := Int.cast_ne_zero.mpr htane
  have htaq : (0:ℚ) < (ta : ℚ) := by exact_mod_cast hta
  have hwcq : (0:ℚ) ≤ (wc : ℚ) := by exact_mod_cast h0
  have h1q : (wc : ℚ) ≤ (ta : ℚ) := by exact_mod_cast h1
  have hform : wordWeight ⟨i, ta, wc⟩ = 1 + ((wc : ℚ) / (ta : ℚ)) * 2 := by
    simp [wordWeight, htane]
  refine ⟨calculate_weights_lookup words _ w hw hnd, by simp [wordWeight], hform, ?_, ?_, ?_, ?_, ?_⟩
  · rw [hform]
    have : 0 ≤ ((wc : ℚ) / (ta : ℚ)) := div_nonneg hwcq htaq.le
    linarith
  · rw [hform]
    have : ((wc : ℚ) / (ta : ℚ)) ≤ 1 := (div_le_one htaq).mpr h1q
    linarith
  · simp [wordWeight, htane]
  · simp [wordWeight, htane, div_self hta']
    norm_num
  · intro h2
    rw [hform]
    have hta2 : (ta : ℚ) = 2 * (wc : ℚ) := by exact_mod_cast h2.symm
    have hwcne : (wc : ℚ) ≠ 0 := by
      have : wc ≠ 0 := by omega
      exact_mod_cast this
    rw [hta2]
    field_simp
    ring
/-- Witness for C8 on the one-word list `[⟨1, 10, 5⟩]` (50% wrong rate). -/
theorem C8_weighting_witness :
    ((([(⟨1, 10, 5⟩ : PWord)]).map PWord.word_id).Nodup ∧
     (⟨1, 10, 5⟩ : PWord) ∈ [(⟨1, 10, 5⟩ : PWord)] ∧
     (0:ℤ) < 10 ∧ (0:ℤ) ≤ 5 ∧ (5:ℤ) ≤ 10) ∧
    (calculate_weights [(⟨1, 10, 5⟩ : PWord)] (PWord.word_id ⟨1, 10, 5⟩) =
       some (wordWeight ⟨1, 10, 5⟩) ∧
     wordWeight ⟨2, 0, 5⟩ = 3/2 ∧
     wordWeight ⟨2, 10, 5⟩ = 1 + ((5 : ℚ) / (10 : ℚ)) * 2 ∧
     1 ≤ wordWeight ⟨2, 10, 5⟩ ∧
     wordWeight ⟨2, 10, 5⟩ ≤ 3 ∧
     wordWeight ⟨2, 10, 0⟩ = 1 ∧
     wordWeight ⟨2, 10, 10⟩ = 3 ∧
     (2 * (5:ℤ) = 10 → wordWeight ⟨2, 10, 5⟩ = 2)) :=
  ⟨⟨by decide, by decide, by decide, by decide, by decide⟩,
   by
    have h5 : ((5 : ℤ) : ℚ) = (5 : ℚ) := by norm_num
    have h10 : ((10 : ℤ) : ℚ) = (10 : ℚ) := by norm_num
    have := C8_weighting [⟨1, 10, 5⟩] ⟨1, 10, 5⟩ 2 10 5 (by decide) (by decide)
      (by decide) (by decide) (by decide)
    rwa [h5, h10] at this⟩

lemma dedupeByIdAux_subset (seen : List ℕ) (l : List PWord) :
    ∀ x ∈ dedupeByIdAux seen l, x ∈ l := by
  induction l generalizing seen with
  | nil => simp [dedupeByIdAux]
  | cons w ws ih =>
    intro x hx
    simp only [dedupeByIdAux] at hx
    by_cases hm : w.word_id ∈ seen
    · rw [if_pos hm] at hx
      exact List.mem_cons_of_mem w (ih seen x hx)
    · rw [if_neg hm] at hx
      rcases List.mem_cons.mp hx with h | h
      · exact h ▸ List.mem_cons_self w ws
      · exact List.mem_cons_of_mem w (ih _ x h)

lemma dedupeByIdAux_length (seen : List ℕ) (l : List PWord) :
    (dedupeByIdAux seen l).length ≤ l.length := by
  induction l generalizing seen with
  | nil => simp [dedupeByIdAux]
  | cons w ws ih =>
    simp only [dedupeByIdAux]
    by_cases hm : w.word_id ∈ seen
    · rw [if_pos hm]
      exact le_trans (ih seen) (Nat.le_succ _)
    · rw [if_neg hm]
      simpa using ih (w.word_id :: seen)

lemma dedupeByIdAux_nodup (seen : List ℕ) (l : List PWord) :
    ((dedupeByIdAux seen l).map PWord.word_id).Nodup ∧
      ∀ x ∈ dedupeByIdAux seen l, x.word_id ∉ seen := by
  induction l generalizing seen with
  | nil => simp [dedupeByIdAux]
  | cons w ws ih =>
    simp only [dedupeByIdAux]
    by_cases hm : w.word_id ∈ seen
    · rw [if_pos hm]
      exact ih seen
    · rw [if_neg hm]
      obtain ⟨hnd, hout⟩ := ih (w.word_id :: seen)
      refine ⟨?_, ?_⟩
      · rw [List.map_cons, List.nodup_cons]
        refine ⟨?_, hnd⟩
        intro hmem
        rcases List.mem_map.mp hmem with ⟨y, hy, hyid⟩
        exact (hout y hy) (by rw [hyid]; exact List.mem_cons_self _ _)
      · intro x hx
        rcases List.mem_cons.mp hx with h | h
        · rw [h]
          exact hm
        · intro hxs
          exact (hout x h) (List.mem_cons_of_mem _ hxs)

/-- C9: with `count ≥ len(words)` the selection returns all input words
(no omissions, no duplicate ids when the input has none); otherwise it returns
the de-duplicated draw — a subset of the input of at most `count` words with
pairwise-distinct `word_id`, possibly fewer than `count`. -/
theorem C9_weighted_selection (words : List PWord) (count : ℕ) (draw : List PWord)
    (hnd : (words.map PWord.word_id).Nodup)
    (hlen : draw.length = count) (hdraw : ∀ x ∈ draw, x ∈ words) :
    (words.length ≤ count →
      get_weighted_words words count draw = words ∧
      ((get_weighted_words words count draw).map PWord.word_id).Nodup) ∧
    (count < words.length →
      (get_weighted_words words count draw).length ≤ count ∧
      (∀ x ∈ get_weighted_words words count draw, x ∈ words) ∧
      ((get_weighted_words words count draw).map PWord.word_id).Nodup) := by
  constructor
  · intro hc
    have hall : get_weighted_words words count draw = words := by
      by_cases hw : words = []
      · simp [get_weighted_words, hw]
      · simp [get_weighted_words, hw, hc]
    rw [hall]
    exact ⟨rfl, hnd⟩
  · intro hc
    have hw : words ≠ [] := by
      intro h
      rw [h] at hc
      simp at hc
    have hres : get_weighted_words words count draw = dedupeByIdAux [] draw := by
      simp [get_weighted_words, hw, not_le.mpr hc]
    rw [hres]
    refine ⟨?_, ?_, ?_⟩
    · exact le_trans (dedupeByIdAux_length [] draw) (le_of_eq hlen)
    · intro x hx
      exact hdraw x (dedupeByIdAux_subset [] draw x hx)
    · exact (dedupeByIdAux_nodup [] draw).1

/-- Witness for C9: two words, `count = 1`, draw `[⟨2, 4, 2⟩]`. -/
theorem C9_weighted_selection_witness :
    ((([(⟨1, 0, 0⟩ : PWord), ⟨2, 4, 2⟩]).map PWord.word_id).Nodup ∧
     ([(⟨2, 4, 2⟩ : PWord)]).length = 1 ∧
     (∀ x ∈ [(⟨2, 4, 2⟩ : PWord)], x ∈ [(⟨1, 0, 0⟩ : PWord), ⟨2, 4, 2⟩])) ∧
    ((([(⟨1, 0, 0⟩ : PWord), ⟨2, 4, 2⟩]).length ≤ 1 →
      get_weighted_words [⟨1, 0, 0⟩, ⟨2, 4, 2⟩] 1 [⟨2, 4, 2⟩] = [⟨1, 0, 0⟩, ⟨2, 4, 2⟩] ∧
      ((get_weighted_words [⟨1, 0, 0⟩, ⟨2, 4, 2⟩] 1 [⟨2, 4, 2⟩]).map PWord.word_id).Nodup) ∧
     (1 < ([(⟨1, 0, 0⟩ : PWord), ⟨2, 4, 2⟩]).length →
      (get_weighted_words [⟨1, 0, 0⟩, ⟨2, 4, 2⟩] 1 [⟨2, 4, 2⟩]).length ≤ 1 ∧
      (∀ x ∈ get_weighted_words [⟨1, 0, 0⟩, ⟨2, 4, 2⟩] 1 [⟨2, 4, 2⟩],
         x ∈ [(⟨1, 0, 0⟩ : PWord), ⟨2, 4, 2⟩]) ∧
      ((get_weighted_words [⟨1, 0, 0⟩, ⟨2, 4, 2⟩] 1 [⟨2, 4, 2⟩]).map PWord.word_id).Nodup)) :=
  ⟨⟨by decide, by decide, by decide⟩,
   C9_weighted_selection [⟨1, 0, 0⟩, ⟨2, 4, 2⟩] 1 [⟨2, 4, 2⟩] (by decide) (by decide) (by decide)⟩

lemma pyInt_zero : pyInt 0 = 0 := by
  have h : ratFloor 0 = 0 := by decide
  simp [pyInt, h]

/-- C10: the flat-increment variant keeps the ease factor in `[1.3, 2.5]`
whenever it starts there, its wrong-answer branch keeps the interval at least
1, but its correct-answer branch applies no interval floor: interval 0 stays 0
(`int(0 * ef) = 0`), unlike the canonical tiered engine, which promotes
interval 0 to 1 on any success quality. -/
theorem C10_flat_variant (ef : ℚ) (i : ℤ) (q : ℤ)
    (h1 : 13/10 ≤ ef) (h2 : ef ≤ 5/2) (hq1 : 3 ≤ q) (hq2 : q ≤ 5) :
    (13/10 ≤ (update_ease_factor_calc ef i true).1 ∧
      (update_ease_factor_calc ef i true).1 ≤ 5/2) ∧
    (13/10 ≤ (update_ease_factor_calc ef i false).1 ∧
      (update_ease_factor_calc ef i false).1 ≤ 5/2) ∧
    1 ≤ (update_ease_factor_calc ef i false).2 ∧
    (update_ease_factor_calc ef 0 true).2 = 0 ∧
    (calculate_sm2_params ef 0 q).2 = 1 := by
  have h3 : ¬ q < 3 := by omega
  refine ⟨⟨?_, ?_⟩, ⟨?_, ?_⟩, ?_, ?_, ?_⟩
  · simp only [update_ease_factor_calc, if_pos]
    exact le_min (by linarith) (by norm_num)
  · simp only [update_ease_factor_calc, if_pos]
    exact min_le_right _ _
  · simp only [update_ease_factor_calc, Bool.false_eq_true, if_neg, if_false]
    exact le_max_right _ _
  · simp only [update_ease_factor_calc, Bool.false_eq_true, if_neg, if_false]
    exact max_le (by linarith) (by norm_num)
  · simp only [update_ease_factor_calc, Bool.false_eq_true, if_neg, if_false]
    exact le_max_left _ _
  · simp only [update_ease_factor_calc, if_pos, Int.cast_zero, zero_mul]
    exact pyInt_zero
  · simp only [calculate_sm2_params, if_neg h3, if_pos rfl]
    norm_num [hq1]

/-- Witness for C10 at `ef = 2`, `i = 3`, `q = 4`. -/
theorem C10_flat_variant_witness :
    ((13:ℚ)/10 ≤ 2 ∧ (2:ℚ) ≤ 5/2 ∧ 3 ≤ (4:ℤ) ∧ (4:ℤ) ≤ 5) ∧
    ((13/10 ≤ (update_ease_factor_calc 2 3 true).1 ∧
       (update_ease_factor_calc 2 3 true).1 ≤ 5/2) ∧
     (13/10 ≤ (update_ease_factor_calc 2 3 false).1 ∧
       (update_ease_factor_calc 2 3 false).1 ≤ 5/2) ∧
     1 ≤ (update_ease_factor_calc 2 3 false).2 ∧
     (update_ease_factor_calc 2 0 true).2 = 0 ∧
     (calculate_sm2_params 2 0 4).2 = 1) :=
  ⟨⟨by norm_num, by norm_num, by norm_num, by norm_num⟩,
   C10_flat_variant 2 3 4 (by norm_num) (by norm_num) (by norm_num) (by norm_num)⟩
